import Mathlib

/-!
Verification of the snocat tunnel-server core against its specification.

The Rust sources are shallowly embedded: the in-memory tunnel registry
(common/protocol/traits.rs) becomes pure functions over an association
list modelling the BTreeMap, the per-substream dispatch function
(server/modular.rs) becomes a pure function over negotiation outcomes,
the preset service registry (snocat-cli/services/mod.rs) becomes list
search, and the TCP proxy address codec (common/protocol/proxy_tcp.rs)
becomes character-list formatting and parsing.  Rust strings are
modelled as lists of characters; u64 identifiers as Nat; u16 ports as
Fin 65536.
-/

deriving instance DecidableEq for Except

namespace Snocat

/-! ## Tunnel registry (common/protocol/traits.rs)

The registry maps TunnelId to TunnelRecord.  The Rust BTreeMap with
unique keys is modelled as an association list; the tunnel payload
type is kept generic, standing for the Arc dyn Tunnel handle. -/

/-- TunnelId is an opaque 64-bit identifier; modelled as Nat since no
arithmetic overflow is involved in any registry operation. -/
abbrev TunnelId := Nat

abbrev TunnelName := String

/-- Mirrors struct TunnelRecord: id, optional name, and the tunnel handle. -/
structure TunnelRecord (α : Type) where
  id : TunnelId
  name : Option TunnelName
  tunnel : α
  deriving DecidableEq, Repr

/-- The BTreeMap of InMemoryTunnelRegistry, as an association list keyed by TunnelId. -/
abbrev Registry (α : Type) := List (TunnelId × TunnelRecord α)

/-- Mirrors enum TunnelRegistrationError (the anyhow payload is modelled as a string). -/
inductive TunnelRegistrationError where
  | IdOccupied (id : TunnelId)
  | NameOccupied (name : TunnelName)
  | ApplicationError (e : String)
  deriving DecidableEq, Repr

/-- Mirrors enum TunnelNamingError. -/
inductive TunnelNamingError where
  | NameOccupied (name : TunnelName)
  | TunnelNotRegistered (id : TunnelId)
  | ApplicationError (e : String)
  deriving DecidableEq, Repr

/-- BTreeMap contains_key. -/
def containsKey {α : Type} (m : Registry α) (id : TunnelId) : Bool :=
  m.any (fun e => e.1 == id)

/-- BTreeMap get, returning the record stored at the key. -/
def lookupId {α : Type} (m : Registry α) (id : TunnelId) : Option (TunnelRecord α) :=
  (m.find? (fun e => e.1 == id)).map (·.2)

/-- InMemoryTunnelRegistry::register_tunnel: refuse an occupied id, else insert
a fresh record with the given id and no name.  The Rust method mutates the
map and returns Result of unit; the model returns the updated map. -/
def register_tunnel {α : Type} (m : Registry α) (id : TunnelId) (t : α) :
    Except TunnelRegistrationError (Registry α) :=
  if containsKey m id then
    .error (.IdOccupied id)
  else
    .ok (m ++ [(id, ⟨id, none, t⟩)])

/-- The get_mut assignment performed by name_tunnel on success: set the name
of the entry stored at the key, leave every other entry alone. -/
def updEntry {α : Type} (id : TunnelId) (nm : TunnelName)
    (e : TunnelId × TunnelRecord α) : TunnelId × TunnelRecord α :=
  if e.1 == id then (e.1, { e.2 with name := some nm }) else e

/-- The registry after name_tunnel succeeds at the given key. -/
def updName {α : Type} (m : Registry α) (id : TunnelId) (nm : TunnelName) : Registry α :=
  m.map (updEntry id nm)

/-- InMemoryTunnelRegistry::name_tunnel: if the id is absent, report
TunnelNotRegistered; if any record under a different id currently holds the
requested name, report NameOccupied (the scan compares the iterated key
against the id field of the record found at the key, exactly as the Rust
closure does); otherwise set the name on the record at the key. -/
def name_tunnel {α : Type} (m : Registry α) (id : TunnelId) (nm : TunnelName) :
    Except TunnelNamingError (Registry α) :=
  match lookupId m id with
  | none => .error (.TunnelNotRegistered id)
  | some r =>
    if m.any (fun e => e.2.name == some nm && !(e.1 == r.id)) then
      .error (.NameOccupied nm)
    else
      .ok (updName m id nm)

/-- InMemoryTunnelRegistry::deregister_tunnel: BTreeMap remove, returning the
removed record or unit error when absent. -/
def deregister_tunnel {α : Type} (m : Registry α) (id : TunnelId) :
    Except Unit (TunnelRecord α × Registry α) :=
  match lookupId m id with
  | none => .error ()
  | some r => .ok (r, m.eraseP (fun e => e.1 == id))

/-- One registry operation, for stating properties over operation sequences. -/
inductive RegOp (α : Type) where
  | register (id : TunnelId) (t : α)
  | name (id : TunnelId) (nm : TunnelName)
  | deregister (id : TunnelId)

/-- Apply one operation; a failing operation returns early in Rust without
mutating the map, so the state is unchanged. -/
def step {α : Type} (m : Registry α) : RegOp α → Registry α
  | .register id t =>
    match register_tunnel m id t with
    | .ok m' => m'
    | .error _ => m
  | .name id nm =>
    match name_tunnel m id nm with
    | .ok m' => m'
    | .error _ => m
  | .deregister id =>
    match deregister_tunnel m id with
    | .ok (_, m') => m'
    | .error _ => m

/-- Run a sequence of operations from the empty registry of
InMemoryTunnelRegistry::new. -/
def applyOps {α : Type} (ops : List (RegOp α)) : Registry α :=
  ops.foldl step []

/-- Registry invariant: keys are pairwise distinct, every record is stamped
with its own key, and at most one record holds any given name. -/
def Inv {α : Type} (m : Registry α) : Prop :=
  (m.map Prod.fst).Nodup ∧
  (∀ e ∈ m, (e : TunnelId × TunnelRecord α).2.id = e.1) ∧
  (∀ e₁ ∈ m, ∀ e₂ ∈ m,
    (e₁ : TunnelId × TunnelRecord α).2.name ≠ none → e₁.2.name = e₂.2.name → e₁ = e₂)

instance {α : Type} [DecidableEq α] (m : Registry α) : Decidable (Inv m) := by
  unfold Inv; infer_instance

/-! Helper lemmas about the association-list map model. -/

theorem updEntry_of_eq {α : Type} {id : TunnelId} (nm : TunnelName)
    {e : TunnelId × TunnelRecord α} (hk : e.1 = id) :
    updEntry id nm e = (e.1, { e.2 with name := some nm }) := by
  simp [updEntry, hk]

theorem updEntry_of_ne {α : Type} {id : TunnelId} (nm : TunnelName)
    {e : TunnelId × TunnelRecord α} (hk : e.1 ≠ id) :
    updEntry id nm e = e := by
  simp [updEntry, hk]

theorem updEntry_fst {α : Type} (id : TunnelId) (nm : TunnelName)
    (e : TunnelId × TunnelRecord α) : (updEntry id nm e).1 = e.1 := by
  unfold updEntry; split <;> rfl

theorem updEntry_id {α : Type} (id : TunnelId) (nm : TunnelName)
    (e : TunnelId × TunnelRecord α) : (updEntry id nm e).2.id = e.2.id := by
  unfold updEntry; split <;> rfl

theorem eq_of_mem_of_nodup_keys {α : Type} {m : Registry α}
    (h : (m.map Prod.fst).Nodup) {e₁ e₂ : TunnelId × TunnelRecord α}
    (h₁ : e₁ ∈ m) (h₂ : e₂ ∈ m) (hk : e₁.1 = e₂.1) : e₁ = e₂ := by
  induction m with
  | nil => cases h₁
  | cons a t ih =>
    rw [List.map_cons, List.nodup_cons] at h
    rcases List.mem_cons.mp h₁ with rfl | h₁t
    · rcases List.mem_cons.mp h₂ with rfl | h₂t
      · rfl
      · exact absurd (hk ▸ List.mem_map_of_mem Prod.fst h₂t) h.1
    · rcases List.mem_cons.mp h₂ with rfl | h₂t
      · exact absurd (hk ▸ List.mem_map_of_mem Prod.fst h₁t) h.1
      · exact ih h.2 h₁t h₂t

theorem containsKey_iff {α : Type} {m : Registry α} {id : TunnelId} :
    containsKey m id = true ↔ ∃ e ∈ m, (e : TunnelId × TunnelRecord α).1 = id := by
  simp [containsKey, List.any_eq_true]

theorem containsKey_eq_false_iff {α : Type} {m : Registry α} {id : TunnelId} :
    containsKey m id = false ↔ ∀ e ∈ m, (e : TunnelId × TunnelRecord α).1 ≠ id := by
  rw [← Bool.not_eq_true, containsKey_iff]
  push_neg
  rfl

theorem lookupId_eq_none_iff {α : Type} {m : Registry α} {id : TunnelId} :
    lookupId m id = none ↔ ∀ e ∈ m, (e : TunnelId × TunnelRecord α).1 ≠ id := by
  simp [lookupId, List.find?_eq_none]

theorem lookupId_mem {α : Type} {m : Registry α} {id : TunnelId} {r : TunnelRecord α}
    (h : lookupId m id = some r) : (id, r) ∈ m := by
  rcases Option.map_eq_some'.mp h with ⟨e, he, h2⟩
  have hk : e.1 = id := by simpa using List.find?_some he
  have := List.mem_of_find?_eq_some he
  rw [← hk, ← h2]
  simpa using this

theorem lookupId_append_right {α : Type} {m : Registry α} {id : TunnelId}
    (r : TunnelRecord α) (h : ∀ e ∈ m, (e : TunnelId × TunnelRecord α).1 ≠ id) :
    lookupId (m ++ [(id, r)]) id = some r := by
  have hfind : m.find? (fun e => e.1 == id) = none :=
    List.find?_eq_none.mpr (by intro e he; simpa using h e he)
  simp [lookupId, List.find?_append, hfind]

theorem lookupId_append_other {α : Type} {m : Registry α} {id j : TunnelId}
    (r : TunnelRecord α) (h : j ≠ id) :
    lookupId (m ++ [(id, r)]) j = lookupId m j := by
  unfold lookupId
  rw [List.find?_append]
  have hij : (id == j) = false := beq_eq_false_iff_ne.mpr (Ne.symm h)
  have : List.find? (fun e => e.1 == j) [(id, r)] = none := by
    simp [List.find?, hij]
  rw [this]
  cases m.find? (fun e => e.1 == j) <;> simp

theorem updName_keys {α : Type} (m : Registry α) (id : TunnelId) (nm : TunnelName) :
    (updName m id nm).map Prod.fst = m.map Prod.fst := by
  unfold updName
  rw [List.map_map]
  exact List.map_congr_left (fun e _ => updEntry_fst id nm e)

theorem find?_updName {α : Type} (m : Registry α) (id : TunnelId) (nm : TunnelName)
    (j : TunnelId) :
    (updName m id nm).find? (fun e => e.1 == j) =
      (m.find? (fun e => e.1 == j)).map (updEntry id nm) := by
  unfold updName
  rw [List.find?_map]
  have hp : ((fun e : TunnelId × TunnelRecord α => e.1 == j) ∘ updEntry id nm) =
      (fun e : TunnelId × TunnelRecord α => e.1 == j) := by
    funext e
    show ((updEntry id nm e).1 == j) = (e.1 == j)
    rw [updEntry_fst]
  rw [hp]

theorem lookupId_updName_self {α : Type} {m : Registry α} {id : TunnelId}
    {r : TunnelRecord α} (nm : TunnelName) (h : lookupId m id = some r) :
    lookupId (updName m id nm) id = some { r with name := some nm } := by
  rcases Option.map_eq_some'.mp h with ⟨e, he, h2⟩
  have hk : e.1 = id := by simpa using List.find?_some he
  unfold lookupId
  rw [find?_updName, he, Option.map_some', updEntry_of_eq nm hk, Option.map_some']
  rw [h2]

theorem lookupId_updName_other {α : Type} (m : Registry α) {id j : TunnelId}
    (nm : TunnelName) (h : j ≠ id) :
    lookupId (updName m id nm) j = lookupId m j := by
  unfold lookupId
  rw [find?_updName]
  cases hf : m.find? (fun e => e.1 == j) with
  | none => rfl
  | some e =>
    have hk : e.1 = j := by simpa using List.find?_some hf
    rw [Option.map_some', updEntry_of_ne nm (by rw [hk]; exact h)]

theorem mem_updName {α : Type} {m : Registry α} {id : TunnelId} {nm : TunnelName}
    {e' : TunnelId × TunnelRecord α} (h : e' ∈ updName m id nm) :
    ∃ e ∈ m, e' = updEntry id nm e := by
  rcases List.mem_map.mp h with ⟨e, he, h2⟩
  exact ⟨e, he, h2.symm⟩

/-! Success and failure characterizations of each operation, shared by the
claim theorems below. -/

theorem register_ok {α : Type} {m : Registry α} {id : TunnelId} {t : α}
    (hc : containsKey m id = false) :
    register_tunnel m id t = .ok (m ++ [(id, ⟨id, none, t⟩)]) := by
  simp [register_tunnel, hc]

theorem register_err {α : Type} {m : Registry α} {id : TunnelId} {t : α}
    (hc : containsKey m id = true) :
    register_tunnel m id t = .error (.IdOccupied id) := by
  simp [register_tunnel, hc]

theorem name_tunnel_ok {α : Type} {m : Registry α} {id : TunnelId} {nm : TunnelName}
    {r : TunnelRecord α}
    (hWF : ∀ e ∈ m, (e : TunnelId × TunnelRecord α).2.id = e.1)
    (hr : lookupId m id = some r)
    (hfree : ∀ e ∈ m, (e : TunnelId × TunnelRecord α).2.name = some nm → e.1 = id) :
    name_tunnel m id nm = .ok (updName m id nm) := by
  have hrid : r.id = id := hWF (id, r) (lookupId_mem hr)
  have hany : m.any (fun e => e.2.name == some nm && !(e.1 == r.id)) = false := by
    rw [← Bool.not_eq_true, List.any_eq_true]
    rintro ⟨e, he, hp⟩
    rw [Bool.and_eq_true] at hp
    have h1 : e.2.name = some nm := by simpa using hp.1
    have h2 : e.1 ≠ r.id := by simpa using hp.2
    exact h2 (hrid ▸ hfree e he h1)
  simp [name_tunnel, hr, hany]

theorem name_tunnel_occupied {α : Type} {m : Registry α} {id : TunnelId} {nm : TunnelName}
    {r : TunnelRecord α}
    (hWF : ∀ e ∈ m, (e : TunnelId × TunnelRecord α).2.id = e.1)
    (hr : lookupId m id = some r)
    (hocc : ∃ e ∈ m, (e : TunnelId × TunnelRecord α).2.name = some nm ∧ e.1 ≠ id) :
    name_tunnel m id nm = .error (.NameOccupied nm) := by
  have hrid : r.id = id := hWF (id, r) (lookupId_mem hr)
  rcases hocc with ⟨e, he, h1, h2⟩
  have hany : m.any (fun e => e.2.name == some nm && !(e.1 == r.id)) = true := by
    rw [List.any_eq_true]
    exact ⟨e, he, by simp [h1, hrid, h2]⟩
  simp [name_tunnel, hr, hany]

/-! Preservation of the registry invariant by every operation. -/

theorem inv_nil {α : Type} : Inv ([] : Registry α) :=
  ⟨List.nodup_nil, by simp, by simp⟩

theorem inv_register {α : Type} {m : Registry α} {id : TunnelId} {t : α}
    (h : Inv m) (hc : containsKey m id = false) :
    Inv (m ++ [(id, ⟨id, none, t⟩)]) := by
  obtain ⟨hnd, hwf, hnames⟩ := h
  have hid : ∀ e ∈ m, (e : TunnelId × TunnelRecord α).1 ≠ id :=
    containsKey_eq_false_iff.mp hc
  refine ⟨?_, ?_, ?_⟩
  · rw [List.map_append, List.nodup_append]
    refine ⟨hnd, by simp, ?_⟩
    intro a ha hb
    simp only [List.map_cons, List.map_nil, List.mem_singleton] at hb
    rcases List.mem_map.mp ha with ⟨e, he, rfl⟩
    exact hid e he hb
  · intro e he
    rcases List.mem_append.mp he with h1 | h1
    · exact hwf e h1
    · simp only [List.mem_singleton] at h1
      subst h1; rfl
  · intro e₁ h₁ e₂ h₂ hne hEq
    rcases List.mem_append.mp h₁ with h₁m | h₁s
    · rcases List.mem_append.mp h₂ with h₂m | h₂s
      · exact hnames e₁ h₁m e₂ h₂m hne hEq
      · simp only [List.mem_singleton] at h₂s
        subst h₂s
        exact absurd hEq (by simpa using hne)
    · simp only [List.mem_singleton] at h₁s
      subst h₁s
      exact absurd rfl hne

theorem inv_updName {α : Type} {m : Registry α} {id : TunnelId} {nm : TunnelName}
    (h : Inv m)
    (hfree : ∀ e ∈ m, (e : TunnelId × TunnelRecord α).2.name = some nm → e.1 = id) :
    Inv (updName m id nm) := by
  obtain ⟨hnd, hwf, hnames⟩ := h
  have hkeys := updName_keys m id nm
  refine ⟨by rw [hkeys]; exact hnd, ?_, ?_⟩
  · intro e' he'
    rcases mem_updName he' with ⟨e, he, rfl⟩
    rw [updEntry_id, updEntry_fst]
    exact hwf e he
  · intro e₁' h₁ e₂' h₂ hne hEq
    rcases mem_updName h₁ with ⟨e₁, he₁, rfl⟩
    rcases mem_updName h₂ with ⟨e₂, he₂, rfl⟩
    by_cases hk₁ : e₁.1 = id <;> by_cases hk₂ : e₂.1 = id
    · have : e₁ = e₂ := eq_of_mem_of_nodup_keys hnd he₁ he₂ (by rw [hk₁, hk₂])
      rw [this]
    · exfalso
      rw [updEntry_of_eq nm hk₁] at hEq
      rw [updEntry_of_ne nm hk₂] at hEq
      have : e₂.2.name = some nm := by simpa using hEq.symm
      exact hk₂ (hfree e₂ he₂ this)
    · exfalso
      rw [updEntry_of_ne nm hk₁] at hne hEq
      rw [updEntry_of_eq nm hk₂] at hEq
      have h1nm : e₁.2.name = some nm := by simpa using hEq
      exact hk₁ (hfree e₁ he₁ h1nm)
    · rw [updEntry_of_ne nm hk₁] at hne hEq ⊢
      rw [updEntry_of_ne nm hk₂] at hEq ⊢
      exact hnames e₁ he₁ e₂ he₂ hne hEq

theorem inv_sublist {α : Type} {m m' : Registry α} (h : Inv m) (hs : m'.Sublist m) :
    Inv m' := by
  obtain ⟨hnd, hwf, hnames⟩ := h
  refine ⟨(hs.map Prod.fst).nodup hnd, ?_, ?_⟩
  · exact fun e he => hwf e (hs.subset he)
  · exact fun e₁ h₁ e₂ h₂ hne hEq => hnames e₁ (hs.subset h₁) e₂ (hs.subset h₂) hne hEq

theorem inv_step {α : Type} {m : Registry α} (h : Inv m) (op : RegOp α) :
    Inv (step m op) := by
  cases op with
  | register id t =>
    simp only [step]
    cases hc : containsKey m id with
    | true => rw [register_err hc]; exact h
    | false => rw [register_ok hc]; exact inv_register h hc
  | name id nm =>
    simp only [step]
    cases hn : name_tunnel m id nm with
    | error e => exact h
    | ok m' =>
      cases hl : lookupId m id with
      | none => simp [name_tunnel, hl] at hn
      | some r =>
        cases hany : m.any (fun e => e.2.name == some nm && !(e.1 == r.id)) with
        | true => simp [name_tunnel, hl, hany] at hn
        | false =>
          have hm' : m' = updName m id nm := by
            have := hn
            simp [name_tunnel, hl, hany] at this
            exact this.symm
          have hrid : r.id = id := h.2.1 (id, r) (lookupId_mem hl)
          have hfree : ∀ e ∈ m,
              (e : TunnelId × TunnelRecord α).2.name = some nm → e.1 = id := by
            intro e he hnm
            by_contra hne
            have hT : m.any (fun e => e.2.name == some nm && !(e.1 == r.id)) = true := by
              rw [List.any_eq_true]
              exact ⟨e, he, by simp [hnm, hrid, hne]⟩
            rw [hany] at hT
            exact Bool.false_ne_true hT
          rw [hm']
          exact inv_updName h hfree
  | deregister id =>
    simp only [step]
    cases hl : lookupId m id with
    | none =>
      have hd : deregister_tunnel m id = .error () := by
        simp [deregister_tunnel, hl]
      rw [hd]
      exact h
    | some r =>
      have hd : deregister_tunnel m id = .ok (r, m.eraseP (fun e => e.1 == id)) := by
        simp [deregister_tunnel, hl]
      rw [hd]
      exact inv_sublist h (List.eraseP_sublist m)

theorem inv_foldl {α : Type} (ops : List (RegOp α)) :
    ∀ m : Registry α, Inv m → Inv (ops.foldl step m) := by
  induction ops with
  | nil => exact fun m h => h
  | cons op rest ih => exact fun m h => ih (step m op) (inv_step h op)

/-- C1: for every sequence of register_tunnel, name_tunnel and deregister_tunnel
operations on an InMemoryTunnelRegistry, the resulting state (hence the state
at every intermediate point, each being the result of a prefix sequence) has
pairwise-distinct ids, each record stamped with its own id, and no two records
holding the same Some name: register inserts a fresh record only when the id
is absent, and name_tunnel refuses a name held by a record with a different id. -/
theorem registry_ops_preserve_uniqueness {α : Type} (ops : List (RegOp α)) :
    Inv (applyOps ops) :=
  inv_foldl ops [] inv_nil

/-- C2: register_tunnel errors with IdOccupied exactly when the id is already
present, never returns any other error, and on the vacant case inserts the
record with the given id, no name and the given tunnel, leaving every other
id's lookup unchanged. -/
theorem register_tunnel_spec {α : Type} (m : Registry α) (id : TunnelId) (t : α) :
    (register_tunnel m id t = .error (.IdOccupied id) ↔ containsKey m id = true)
    ∧ (∀ e, register_tunnel m id t = .error e → e = .IdOccupied id)
    ∧ (containsKey m id = false →
        register_tunnel m id t = .ok (m ++ [(id, ⟨id, none, t⟩)])
        ∧ lookupId (m ++ [(id, ⟨id, none, t⟩)]) id = some ⟨id, none, t⟩
        ∧ ∀ j, j ≠ id → lookupId (m ++ [(id, ⟨id, none, t⟩)]) j = lookupId m j) := by
  refine ⟨⟨?_, fun hc => register_err hc⟩, ?_, ?_⟩
  · intro herr
    cases hc : containsKey m id with
    | true => rfl
    | false => rw [register_ok (t := t) hc] at herr; cases herr
  · intro e herr
    cases hc : containsKey m id with
    | true => rw [register_err (t := t) hc] at herr; cases herr; rfl
    | false => rw [register_ok (t := t) hc] at herr; cases herr
  · intro hc
    refine ⟨register_ok hc, ?_, ?_⟩
    · exact lookupId_append_right _ (containsKey_eq_false_iff.mp hc)
    · exact fun j hj => lookupId_append_other _ hj

/-- C3: name_tunnel reports TunnelNotRegistered when the id is absent, reports
NameOccupied when some record under a different id holds the name, and
otherwise succeeds, setting the name on the addressed record and leaving all
other records unchanged; in particular re-asserting the name a record already
holds succeeds. -/
theorem name_tunnel_spec {α : Type} (m : Registry α) (id : TunnelId) (nm : TunnelName)
    (hInv : Inv m) :
    (lookupId m id = none → name_tunnel m id nm = .error (.TunnelNotRegistered id))
    ∧ (∀ r, lookupId m id = some r →
        ((∃ e ∈ m, (e : TunnelId × TunnelRecord α).2.name = some nm ∧ e.1 ≠ id) →
            name_tunnel m id nm = .error (.NameOccupied nm))
        ∧ ((∀ e ∈ m, (e : TunnelId × TunnelRecord α).2.name = some nm → e.1 = id) →
            name_tunnel m id nm = .ok (updName m id nm)
            ∧ lookupId (updName m id nm) id = some { r with name := some nm }
            ∧ ∀ j, j ≠ id → lookupId (updName m id nm) j = lookupId m j)
        ∧ (r.name = some nm →
            name_tunnel m id nm = .ok (updName m id nm)
            ∧ lookupId (updName m id nm) id = some r)) := by
  obtain ⟨hnd, hwf, hnames⟩ := hInv
  constructor
  · intro hl
    simp [name_tunnel, hl]
  · intro r hr
    refine ⟨fun hocc => name_tunnel_occupied hwf hr hocc, ?_, ?_⟩
    · intro hfree
      exact ⟨name_tunnel_ok hwf hr hfree, lookupId_updName_self nm hr,
        fun j hj => lookupId_updName_other m nm hj⟩
    · intro hself
      have hfree : ∀ e ∈ m, (e : TunnelId × TunnelRecord α).2.name = some nm → e.1 = id := by
        intro e he hnm
        have hmem : (id, r) ∈ m := lookupId_mem hr
        have : e = (id, r) := by
          apply hnames e he (id, r) hmem
          · rw [hnm]; exact Option.some_ne_none nm
          · rw [hnm, hself]
        rw [this]
      refine ⟨name_tunnel_ok hwf hr hfree, ?_⟩
      have := lookupId_updName_self nm hr
      have hrec : ({ r with name := some nm } : TunnelRecord α) = r := by
        cases r with
        | mk i n t => simp_all
      rwa [hrec] at this

/-- Witness for C3 at a concrete registry with one named and one unnamed record. -/
theorem name_tunnel_spec_witness :
    (lookupId ([((1 : TunnelId), (⟨1, some "a", ()⟩ : TunnelRecord Unit)),
        (2, ⟨2, none, ()⟩)]) 1 = none →
      name_tunnel [((1 : TunnelId), (⟨1, some "a", ()⟩ : TunnelRecord Unit)),
        (2, ⟨2, none, ()⟩)] 1 "a" = .error (.TunnelNotRegistered 1))
    ∧ (∀ r, lookupId ([((1 : TunnelId), (⟨1, some "a", ()⟩ : TunnelRecord Unit)),
        (2, ⟨2, none, ()⟩)]) 1 = some r →
        ((∃ e ∈ [((1 : TunnelId), (⟨1, some "a", ()⟩ : TunnelRecord Unit)),
            (2, ⟨2, none, ()⟩)], (e : TunnelId × TunnelRecord Unit).2.name = some "a" ∧
            e.1 ≠ 1) →
            name_tunnel [((1 : TunnelId), (⟨1, some "a", ()⟩ : TunnelRecord Unit)),
              (2, ⟨2, none, ()⟩)] 1 "a" = .error (.NameOccupied "a"))
        ∧ ((∀ e ∈ [((1 : TunnelId), (⟨1, some "a", ()⟩ : TunnelRecord Unit)),
            (2, ⟨2, none, ()⟩)], (e : TunnelId × TunnelRecord Unit).2.name = some "a" →
            e.1 = 1) →
            name_tunnel [((1 : TunnelId), (⟨1, some "a", ()⟩ : TunnelRecord Unit)),
              (2, ⟨2, none, ()⟩)] 1 "a" =
              .ok (updName [((1 : TunnelId), (⟨1, some "a", ()⟩ : TunnelRecord Unit)),
                (2, ⟨2, none, ()⟩)] 1 "a")
            ∧ lookupId (updName [((1 : TunnelId), (⟨1, some "a", ()⟩ : TunnelRecord Unit)),
                (2, ⟨2, none, ()⟩)] 1 "a") 1 = some { r with name := some "a" }
            ∧ ∀ j, j ≠ 1 →
                lookupId (updName [((1 : TunnelId), (⟨1, some "a", ()⟩ : TunnelRecord Unit)),
                  (2, ⟨2, none, ()⟩)] 1 "a") j =
                lookupId [((1 : TunnelId), (⟨1, some "a", ()⟩ : TunnelRecord Unit)),
                  (2, ⟨2, none, ()⟩)] j)
        ∧ (r.name = some "a" →
            name_tunnel [((1 : TunnelId), (⟨1, some "a", ()⟩ : TunnelRecord Unit)),
              (2, ⟨2, none, ()⟩)] 1 "a" =
              .ok (updName [((1 : TunnelId), (⟨1, some "a", ()⟩ : TunnelRecord Unit)),
                (2, ⟨2, none, ()⟩)] 1 "a")
            ∧ lookupId (updName [((1 : TunnelId), (⟨1, some "a", ()⟩ : TunnelRecord Unit)),
                (2, ⟨2, none, ()⟩)] 1 "a") 1 = some r)) :=
  name_tunnel_spec [((1 : TunnelId), (⟨1, some "a", ()⟩ : TunnelRecord Unit)),
    (2, ⟨2, none, ()⟩)] 1 "a" (by decide)

/-- C4 counterexample: a registered tunnel named a and then named b ends with
name b, without any deregistration in the operation sequence; the name field
is replaced in place, refuting the at-most-once transition. -/
theorem name_overwrite_counterexample :
    lookupId (applyOps [RegOp.register (α := Unit) 1 (), .name 1 "a"]) 1 =
      some ⟨1, some "a", ()⟩
    ∧ lookupId (applyOps [RegOp.register (α := Unit) 1 (), .name 1 "a", .name 1 "b"]) 1 =
      some ⟨1, some "b", ()⟩ := by
  constructor <;> rfl

/-- C4 amended: while a record is registered, name_tunnel may reassign its
name at any time: whenever no record under another id holds the requested
name, naming succeeds and overwrites whatever name the record held, with no
deregistration required; the registry guarantees only uniqueness of the name,
not its immutability. -/
theorem name_tunnel_rename {α : Type} (m : Registry α) (id : TunnelId) (nm : TunnelName)
    (r : TunnelRecord α)
    (hWF : ∀ e ∈ m, (e : TunnelId × TunnelRecord α).2.id = e.1)
    (hr : lookupId m id = some r)
    (hfree : ∀ e ∈ m, (e : TunnelId × TunnelRecord α).2.name = some nm → e.1 = id) :
    name_tunnel m id nm = .ok (updName m id nm)
    ∧ lookupId (updName m id nm) id = some { r with name := some nm }
    ∧ ∀ j, j ≠ id → lookupId (updName m id nm) j = lookupId m j :=
  ⟨name_tunnel_ok hWF hr hfree, lookupId_updName_self nm hr,
    fun _ hj => lookupId_updName_other m nm hj⟩

/-- Witness for the C4 amendment: a record already named a is renamed to b. -/
theorem name_tunnel_rename_witness :
    name_tunnel [((1 : TunnelId), (⟨1, some "a", ()⟩ : TunnelRecord Unit))] 1 "b" =
      .ok (updName [((1 : TunnelId), (⟨1, some "a", ()⟩ : TunnelRecord Unit))] 1 "b")
    ∧ lookupId (updName [((1 : TunnelId), (⟨1, some "a", ()⟩ : TunnelRecord Unit))] 1 "b") 1 =
      some { (⟨1, some "a", ()⟩ : TunnelRecord Unit) with name := some "b" }
    ∧ ∀ j, j ≠ 1 →
        lookupId (updName [((1 : TunnelId), (⟨1, some "a", ()⟩ : TunnelRecord Unit))] 1 "b") j =
        lookupId [((1 : TunnelId), (⟨1, some "a", ()⟩ : TunnelRecord Unit))] j :=
  name_tunnel_rename [((1 : TunnelId), (⟨1, some "a", ()⟩ : TunnelRecord Unit))] 1 "b"
    ⟨1, some "a", ()⟩ (by decide) (by decide) (by decide)

/-! ## Per-substream request dispatch (server/modular.rs)

handle_incoming_request_bistream matches on the outcome of the negotiation
handshake and decides whether the error terminates the serving loop.  The
negotiation itself performs stream I/O; its outcome is the input of the
embedded function.  The opaque anyhow payloads are modelled by a small
wrapper type recording what was wrapped. -/

/-- Model of anyhow::Error payloads: either a plain message or the wrapping
of a fatal negotiation error performed by the Into conversion in the
FatalError arm. -/
inductive AnyhowError where
  | msg (s : String)
  | wrapNegotiationFatal (e : AnyhowError)
  deriving DecidableEq, Repr

/-- Mirrors enum NegotiationError; the exhaustive match in
handle_incoming_request_bistream names exactly these eight variants. -/
inductive NegotiationError where
  | UnsupportedProtocolVersion
  | ProtocolViolation
  | ReadError
  | WriteError
  | Refused
  | UnsupportedServiceVersion
  | ApplicationError (e : AnyhowError)
  | FatalError (e : AnyhowError)
  deriving DecidableEq, Repr

/-- Tunnel-level transport error (payload of RequestProcessingError::TunnelError);
its own variants live outside the analysed sources and are opaque here. -/
inductive TunnelError where
  | ConnectionClosed
  | other (s : String)
  deriving DecidableEq, Repr

/-- Mirrors enum RequestProcessingError in server/modular.rs. -/
inductive RequestProcessingError where
  | UnsupportedProtocolVersion
  | TunnelError (e : TunnelError)
  | FatalError (e : AnyhowError)
  deriving DecidableEq, Repr

/-- Mirrors enum ServiceError in common/protocol/traits.rs. -/
inductive ServiceError where
  | Refused
  | UnexpectedEnd
  | IllegalResponse
  | AddressError
  | DependencyFailure
  | BacktraceDependencyFailure
  | InternalFailure (e : AnyhowError)
  deriving DecidableEq, Repr

/-- Rust RouteAddress is a String; modelled as its character sequence. -/
abbrev RouteAddress := List Char

/-- ModularDaemon::handle_incoming_request_bistream.  Inputs: the negotiation
outcome (a successful negotiation yields the route address; the link and
service values are captured by the serviceHandle argument, which stands for
service.handle applied to that link and tunnel id), and whether
shutdown.is_cancelled() observes the token as already cancelled.  Output:
the Result returned to the serving loop, paired with a flag recording
whether service.handle was invoked. -/
def handle_incoming_request_bistream
    (negotiated : Except NegotiationError RouteAddress)
    (shutdown_is_cancelled : Bool)
    (serviceHandle : RouteAddress → Except ServiceError Unit) :
    Except RequestProcessingError Unit × Bool :=
  match negotiated with
  | .error .UnsupportedProtocolVersion =>
    (.error .UnsupportedProtocolVersion, false)
  | .error .ProtocolViolation => (.ok (), false)
  | .error .ReadError => (.ok (), false)
  | .error .WriteError => (.ok (), false)
  | .error .Refused => (.ok (), false)
  | .error .UnsupportedServiceVersion => (.ok (), false)
  | .error (.ApplicationError _) => (.ok (), false)
  | .error (.FatalError e) =>
    (.error (.FatalError (.wrapNegotiationFatal e)), false)
  | .ok route_addr =>
    if shutdown_is_cancelled then
      (.ok (), false)
    else
      match serviceHandle route_addr with
      | .error _ => (.ok (), true)
      | .ok () => (.ok (), true)

/-- C5: the dispatch of a sub-stream returns an error exactly when negotiation
reports UnsupportedProtocolVersion (mapped to the request-processing variant
of the same name) or FatalError (wrapped); every other negotiation error and
every outcome of the matched service handler, error or not, yields Ok, so
those failures never terminate the serving loop. -/
theorem bistream_error_characterization
    (negotiated : Except NegotiationError RouteAddress)
    (shutdown_is_cancelled : Bool)
    (serviceHandle : RouteAddress → Except ServiceError Unit) :
    ∀ e, (handle_incoming_request_bistream negotiated shutdown_is_cancelled
        serviceHandle).1 = .error e ↔
      ((negotiated = .error .UnsupportedProtocolVersion
          ∧ e = .UnsupportedProtocolVersion)
        ∨ (∃ a, negotiated = .error (.FatalError a)
            ∧ e = .FatalError (.wrapNegotiationFatal a))) := by
  intro e
  cases negotiated with
  | error err =>
    cases err <;> simp [handle_incoming_request_bistream] <;> tauto
  | ok addr =>
    simp only [handle_incoming_request_bistream]
    constructor
    · intro hcontra
      by_cases hsd : shutdown_is_cancelled
      · simp [hsd] at hcontra
      · simp [hsd] at hcontra
        cases hh : serviceHandle addr with
        | error se => rw [hh] at hcontra; cases hcontra
        | ok u => rw [hh] at hcontra; cases hcontra
    · rintro (⟨h1, _⟩ | ⟨a, h1, _⟩) <;> cases h1

/-- C10: when the shutdown token is observed as cancelled at the moment a
negotiation completes successfully, the function returns Ok without invoking
the matched service's handle. -/
theorem bistream_shutdown_skips_service
    (negotiated : Except NegotiationError RouteAddress) (addr : RouteAddress)
    (serviceHandle : RouteAddress → Except ServiceError Unit)
    (hneg : negotiated = .ok addr) :
    handle_incoming_request_bistream negotiated true serviceHandle =
      (.ok (), false) := by
  subst hneg
  rfl

/-- Witness for C10 at a concrete successful negotiation. -/
theorem bistream_shutdown_skips_service_witness :
    handle_incoming_request_bistream (.ok [])
      true (fun _ => .ok ()) = (.ok (), false) :=
  bistream_shutdown_skips_service (.ok []) []
    (fun _ => .ok ()) rfl

/-! ## Preset service registry (snocat-cli/src/services/mod.rs) -/

/-- A registered protocol service: its accepts predicate and its handler.
The handler result stands in for the service behaviour so that distinct
services are distinct values. -/
structure Service where
  accepts : RouteAddress → TunnelId → Bool
  handle : RouteAddress → TunnelId → Except ServiceError Unit

/-- PresetServiceRegistry holds a vector of services behind an RwLock. -/
structure PresetServiceRegistry where
  services : List Service

/-- PresetServiceRegistry::new. -/
def PresetServiceRegistry.new : PresetServiceRegistry := ⟨[]⟩

/-- PresetServiceRegistry::add_service_blocking (Vec::push). -/
def add_service_blocking (r : PresetServiceRegistry) (s : Service) :
    PresetServiceRegistry :=
  ⟨r.services ++ [s]⟩

/-- PresetServiceRegistry::find_service: first service whose accepts
predicate holds, in vector order. -/
def find_service (r : PresetServiceRegistry) (addr : RouteAddress)
    (tunnel_id : TunnelId) : Option Service :=
  r.services.find? (fun s => s.accepts addr tunnel_id)

/-- The registry built by registering the given services in order. -/
def registryOfList (l : List Service) : PresetServiceRegistry :=
  l.foldl add_service_blocking PresetServiceRegistry.new

theorem registryOfList_services (l : List Service) :
    (registryOfList l).services = l := by
  suffices h : ∀ acc : PresetServiceRegistry,
      (l.foldl add_service_blocking acc).services = acc.services ++ l by
    simpa [registryOfList, PresetServiceRegistry.new] using h ⟨[]⟩
  induction l with
  | nil => intro acc; simp
  | cons s t ih =>
    intro acc
    rw [List.foldl_cons, ih]
    simp [add_service_blocking]

/-- C6: find_service on a registry built by appending services returns the
first service, in registration order, whose accepts predicate is true for
the address and tunnel id, and returns none exactly when no registered
service accepts. -/
theorem find_service_first (l : List Service) (addr : RouteAddress)
    (tunnel_id : TunnelId) :
    (∀ s, find_service (registryOfList l) addr tunnel_id = some s →
        s.accepts addr tunnel_id = true
        ∧ ∃ pre post, l = pre ++ s :: post
            ∧ ∀ s' ∈ pre, s'.accepts addr tunnel_id = false)
    ∧ (find_service (registryOfList l) addr tunnel_id = none ↔
        ∀ s ∈ l, s.accepts addr tunnel_id = false) := by
  unfold find_service
  rw [registryOfList_services]
  constructor
  · intro s hs
    rw [List.find?_eq_some] at hs
    refine ⟨hs.1, ?_⟩
    rcases hs.2 with ⟨pre, post, hsplit, hpre⟩
    refine ⟨pre, post, hsplit, fun s' hs' => ?_⟩
    have := hpre s' hs'
    simpa using this
  · rw [List.find?_eq_none]
    constructor
    · intro h s hs
      have := h s hs
      simpa using this
    · intro h s hs
      simp [h s hs]

/-! ## TCP proxy address codec (common/protocol/proxy_tcp.rs)

Preliminaries: decimal and hexadecimal rendering of unsigned integers,
modelling the std Display and FromStr implementations the Rust code
delegates to, and the slash-splitting performed by str::splitn. -/

/-- The character for one digit value: 0-9 map into the decimal digit block
starting at code point 48, values 10-15 into the lowercase letters starting
at code point 97 (so 87 + value). -/
def digitCharB (d : Nat) : Char :=
  if d < 10 then Char.ofNat (48 + d) else Char.ofNat (87 + d)

/-- The digit value of a character, if any: code points 48-57 are the
decimal digits, 97-102 the lowercase hexadecimal letters. -/
def charVal? (c : Char) : Option Nat :=
  if 48 ≤ c.toNat ∧ c.toNat ≤ 57 then some (c.toNat - 48)
  else if 97 ≤ c.toNat ∧ c.toNat ≤ 102 then some (c.toNat - 87)
  else none

/-- Digit value in base b. -/
def charDigitB? (b : Nat) (c : Char) : Option Nat :=
  match charVal? c with
  | some d => if d < b then some d else none
  | none => none

/-- Little-endian digit list of n in base b, with explicit fuel for
structural recursion; fuel at least n suffices. -/
def natDigitsAux (b : Nat) : Nat → Nat → List Nat
  | _, 0 => []
  | 0, _ + 1 => []
  | fuel + 1, n + 1 => ((n + 1) % b) :: natDigitsAux b fuel ((n + 1) / b)

/-- Little-endian digit list of n in base b. -/
def natDigits (b n : Nat) : List Nat := natDigitsAux b n n

/-- Rendering of n in base b, most significant digit first; models the std
Display implementations for unsigned integers (base 10) and the hexadecimal
group rendering used for IPv6 (base 16). -/
def natReprB (b n : Nat) : List Char :=
  if n = 0 then ['0'] else ((natDigits b n).reverse.map digitCharB)

/-- Decimal rendering of n, as written by the Display implementations. -/
def natRepr (n : Nat) : List Char := natReprB 10 n

/-- Read every character as a base-b digit, failing on the first non-digit. -/
def readDigits? (b : Nat) : List Char → Option (List Nat)
  | [] => some []
  | c :: cs =>
    match charDigitB? b c, readDigits? b cs with
    | some d, some ds => some (d :: ds)
    | _, _ => none

/-- Parse a non-empty all-digit string in base b; models std unsigned integer
FromStr on sign-free input (the only form the round trips exercise). -/
def readNatB (b : Nat) (s : List Char) : Option Nat :=
  match readDigits? b s with
  | none => none
  | some [] => none
  | some ds => some (ds.foldl (fun a d => a * b + d) 0)

/-- u16::from_str: decimal parse with overflow rejection. -/
def readU16? (s : List Char) : Option (Fin 65536) :=
  match readNatB 10 s with
  | none => none
  | some n => if h : n < 65536 then some ⟨n, h⟩ else none

theorem natDigitsAux_eq {b : Nat} (hb : 1 < b) :
    ∀ fuel n, n ≤ fuel → natDigitsAux b fuel n = Nat.digits b n := by
  intro fuel
  induction fuel with
  | zero =>
    intro n hn
    have : n = 0 := Nat.le_zero.mp hn
    subst this
    simp [natDigitsAux]
  | succ f ih =>
    intro n hn
    cases n with
    | zero => simp [natDigitsAux]
    | succ k =>
      have hdiv : (k + 1) / b ≤ f := by
        have h1 : (k + 1) / b < k + 1 := Nat.div_lt_self (Nat.succ_pos k) hb
        omega
      rw [natDigitsAux, ih ((k + 1) / b) hdiv, Nat.digits_def' hb (Nat.succ_pos k)]

theorem natDigits_eq {b : Nat} (hb : 1 < b) (n : Nat) :
    natDigits b n = Nat.digits b n :=
  natDigitsAux_eq hb n n le_rfl

theorem charVal?_digitCharB {d : Nat} (hd : d < 16) :
    charVal? (digitCharB d) = some d := by
  interval_cases d <;> rfl

theorem charDigitB?_digitCharB {b d : Nat} (hb : b ≤ 16) (hd : d < b) :
    charDigitB? b (digitCharB d) = some d := by
  have h16 : d < 16 := lt_of_lt_of_le hd hb
  unfold charDigitB?
  rw [charVal?_digitCharB h16]
  simp [hd]

theorem readDigits?_map {b : Nat} (hb : b ≤ 16) :
    ∀ L : List Nat, (∀ d ∈ L, d < b) →
      readDigits? b (L.map digitCharB) = some L := by
  intro L
  induction L with
  | nil => intro _; rfl
  | cons d t ih =>
    intro h
    rw [List.map_cons, readDigits?, charDigitB?_digitCharB hb (h d (List.mem_cons_self _ _)),
      ih (fun x hx => h x (List.mem_cons_of_mem d hx))]

theorem foldl_mul_add (b : Nat) :
    ∀ (L : List Nat) (acc : Nat),
      L.reverse.foldl (fun a d => a * b + d) acc =
        acc * b ^ L.length + Nat.ofDigits b L := by
  intro L
  induction L with
  | nil => intro acc; simp [Nat.ofDigits_nil]
  | cons d t ih =>
    intro acc
    rw [List.reverse_cons, List.foldl_append, ih acc]
    simp only [List.foldl_cons, List.foldl_nil, Nat.ofDigits_cons, List.length_cons]
    ring

theorem readNatB_natReprB {b : Nat} (hb1 : 1 < b) (hb16 : b ≤ 16) (n : Nat) :
    readNatB b (natReprB b n) = some n := by
  by_cases hn : n = 0
  · subst hn
    have hb0 : 0 < b := by omega
    simp [natReprB, readNatB, readDigits?, charDigitB?, charVal?, hb0]
  · have hL : natDigits b n = Nat.digits b n := natDigits_eq hb1 n
    have hlt : ∀ d ∈ (Nat.digits b n).reverse, d < b := by
      intro d hd
      exact Nat.digits_lt_base hb1 (List.mem_reverse.mp hd)
    have hread : readDigits? b (((Nat.digits b n).reverse).map digitCharB) =
        some ((Nat.digits b n).reverse) := readDigits?_map hb16 _ hlt
    have hne : Nat.digits b n ≠ [] := Nat.digits_ne_nil_iff_ne_zero.mpr hn
    obtain ⟨d, ds, hcons⟩ : ∃ d ds, (Nat.digits b n).reverse = d :: ds := by
      cases hrev : (Nat.digits b n).reverse with
      | nil => exact absurd (by simpa using congrArg List.reverse hrev) hne
      | cons d ds => exact ⟨d, ds, rfl⟩
    have hfold : ((Nat.digits b n).reverse).foldl (fun a d => a * b + d) 0 = n := by
      rw [foldl_mul_add b (Nat.digits b n) 0, Nat.zero_mul, Nat.zero_add,
        Nat.ofDigits_digits]
    rw [natReprB, if_neg hn, hL, readNatB, hread, hcons]
    rw [hcons] at hfold
    simp [hfold]

theorem readU16?_natRepr (p : Fin 65536) : readU16? (natRepr p.val) = some p := by
  unfold readU16? natRepr
  rw [readNatB_natReprB (by norm_num) (by norm_num)]
  simp [p.isLt]

theorem mem_natReprB {b n : Nat} (hb1 : 1 < b) (hb16 : b ≤ 16) {c : Char}
    (hc : c ∈ natReprB b n) : ∃ d, d < 16 ∧ c = digitCharB d := by
  unfold natReprB at hc
  split at hc
  · simp only [List.mem_singleton] at hc
    exact ⟨0, by norm_num, hc⟩
  · rcases List.mem_map.mp hc with ⟨d, hd, rfl⟩
    have hmem : d ∈ Nat.digits b n := by
      rw [← natDigits_eq hb1]
      exact List.mem_reverse.mp hd
    exact ⟨d, lt_of_lt_of_le (Nat.digits_lt_base hb1 hmem) hb16, rfl⟩

theorem digitCharB_ne_sep {d : Nat} (hd : d < 16) :
    digitCharB d ≠ '/' ∧ digitCharB d ≠ '.' ∧ digitCharB d ≠ ':' := by
  interval_cases d <;> exact ⟨by decide, by decide, by decide⟩

theorem natReprB_not_mem_slash {b n : Nat} (hb1 : 1 < b) (hb16 : b ≤ 16) :
    '/' ∉ natReprB b n := by
  intro h
  rcases mem_natReprB hb1 hb16 h with ⟨d, hd, hEq⟩
  exact (digitCharB_ne_sep hd).1 hEq.symm

theorem natRepr_not_mem_slash (n : Nat) : '/' ∉ natRepr n :=
  natReprB_not_mem_slash (by norm_num) (by norm_num)

theorem natRepr_not_mem_dot (n : Nat) : '.' ∉ natRepr n := by
  intro h
  rcases mem_natReprB (b := 10) (by norm_num) (by norm_num) h with ⟨d, hd, hEq⟩
  exact (digitCharB_ne_sep hd).2.1 hEq.symm

theorem natReprB_not_mem_colon {b n : Nat} (hb1 : 1 < b) (hb16 : b ≤ 16) :
    ':' ∉ natReprB b n := by
  intro h
  rcases mem_natReprB hb1 hb16 h with ⟨d, hd, hEq⟩
  exact (digitCharB_ne_sep hd).2.2 hEq.symm

/-! str::splitn and str::split over character lists. -/

/-- Split at the first occurrence of the separator, if any. -/
def splitFirst (sep : Char) : List Char → Option (List Char × List Char)
  | [] => none
  | c :: cs =>
    if c = sep then some ([], cs)
    else
      match splitFirst sep cs with
      | none => none
      | some (a, rest) => some (c :: a, rest)

/-- str::splitn(n, sep): at most n pieces; the final piece keeps any
remaining separators. -/
def splitn : Nat → Char → List Char → List (List Char)
  | 0, _, _ => []
  | 1, _, s => [s]
  | n + 2, sep, s =>
    match splitFirst sep s with
    | none => [s]
    | some (a, rest) => a :: splitn (n + 1) sep rest

/-- str::split with explicit fuel (the input length suffices). -/
def splitAllAux (sep : Char) : Nat → List Char → List (List Char)
  | 0, s => [s]
  | fuel + 1, s =>
    match splitFirst sep s with
    | none => [s]
    | some (a, rest) => a :: splitAllAux sep fuel rest

/-- str::split at every occurrence of the separator. -/
def splitAll (sep : Char) (s : List Char) : List (List Char) :=
  splitAllAux sep s.length s

/-- Join segments with the separator (the inverse image of split). -/
def joinSep (sep : Char) : List (List Char) → List Char
  | [] => []
  | [s] => s
  | s :: rest => s ++ sep :: joinSep sep rest

theorem splitFirst_of_not_mem {sep : Char} : ∀ {s : List Char}, sep ∉ s →
    splitFirst sep s = none := by
  intro s
  induction s with
  | nil => intro _; rfl
  | cons c cs ih =>
    intro h
    have hc : c ≠ sep := fun hEq => h (hEq ▸ List.mem_cons_self _ _)
    have hcs : sep ∉ cs := fun hm => h (List.mem_cons_of_mem c hm)
    rw [splitFirst, if_neg hc, ih hcs]

theorem splitFirst_append {sep : Char} : ∀ {a : List Char}, sep ∉ a →
    ∀ rest, splitFirst sep (a ++ sep :: rest) = some (a, rest) := by
  intro a
  induction a with
  | nil => intro _ rest; simp [splitFirst]
  | cons c cs ih =>
    intro h rest
    have hc : c ≠ sep := fun hEq => h (hEq ▸ List.mem_cons_self _ _)
    have hcs : sep ∉ cs := fun hm => h (List.mem_cons_of_mem c hm)
    rw [List.cons_append, splitFirst, if_neg hc, ih hcs rest]

theorem splitn_sep_cons (n : Nat) (sep : Char) (s : List Char) :
    splitn (n + 2) sep (sep :: s) = [] :: splitn (n + 1) sep s := by
  rw [splitn]
  have : splitFirst sep (sep :: s) = some ([], s) := by
    rw [splitFirst, if_pos rfl]
  rw [this]

theorem splitn_append (n : Nat) {sep : Char} {a : List Char} (h : sep ∉ a)
    (rest : List Char) :
    splitn (n + 2) sep (a ++ sep :: rest) = a :: splitn (n + 1) sep rest := by
  rw [splitn, splitFirst_append h rest]

theorem splitn_not_mem (n : Nat) {sep : Char} {s : List Char} (h : sep ∉ s) :
    splitn (n + 1) sep s = [s] := by
  cases n with
  | zero => rfl
  | succ k => rw [splitn, splitFirst_of_not_mem h]

theorem splitAllAux_join (sep : Char) :
    ∀ (segs : List (List Char)) (fuel : Nat), segs ≠ [] →
      (∀ t ∈ segs, sep ∉ t) → segs.length ≤ fuel + 1 →
      splitAllAux sep fuel (joinSep sep segs) = segs := by
  intro segs
  induction segs with
  | nil => intro fuel h; exact absurd rfl h
  | cons s rest ih =>
    intro fuel _ hsep hlen
    cases rest with
    | nil =>
      have hs : sep ∉ s := hsep s (List.mem_cons_self _ _)
      cases fuel with
      | zero => rfl
      | succ f => rw [joinSep, splitAllAux, splitFirst_of_not_mem hs]
    | cons s2 rest2 =>
      have hs : sep ∉ s := hsep s (List.mem_cons_self _ _)
      obtain ⟨f, rfl⟩ : ∃ f, fuel = f + 1 := by
        cases fuel with
        | zero => simp at hlen
        | succ f => exact ⟨f, rfl⟩
      have hjoin : joinSep sep (s :: s2 :: rest2) =
          s ++ sep :: joinSep sep (s2 :: rest2) := rfl
      rw [hjoin, splitAllAux, splitFirst_append hs]
      show s :: splitAllAux sep f (joinSep sep (s2 :: rest2)) = s :: s2 :: rest2
      rw [ih f (by simp) (fun t ht => hsep t (List.mem_cons_of_mem s ht))
        (by simp only [List.length_cons] at hlen ⊢; omega)]

theorem joinSep_length (sep : Char) :
    ∀ segs : List (List Char), segs.length ≤ (joinSep sep segs).length + 1 := by
  intro segs
  induction segs with
  | nil => simp
  | cons s rest ih =>
    cases rest with
    | nil => simp [joinSep]
    | cons s2 rest2 =>
      have hjoin : joinSep sep (s :: s2 :: rest2) =
          s ++ sep :: joinSep sep (s2 :: rest2) := rfl
      rw [hjoin]
      simp only [List.length_cons, List.length_append] at ih ⊢
      omega

theorem splitAll_join (sep : Char) (segs : List (List Char)) (h1 : segs ≠ [])
    (h2 : ∀ t ∈ segs, sep ∉ t) : splitAll sep (joinSep sep segs) = segs := by
  unfold splitAll
  rcases Nat.exists_eq_add_of_le (Nat.le_of_succ_le_succ
    (Nat.succ_le_succ (joinSep_length sep segs))) with ⟨_, _⟩
  exact splitAllAux_join sep segs (joinSep sep segs).length h1 h2
    (joinSep_length sep segs)

/-! Address data model.  The std IP address types are concrete numeric
structures; their textual codecs are modelled below (IPv4) or passed as
parameters obeying the std contract (IPv6, whose canonical Display
performs RFC 5952 zero-compression outside the scope of this repository). -/

structure Ipv4Addr where
  o1 : Fin 256
  o2 : Fin 256
  o3 : Fin 256
  o4 : Fin 256
  deriving DecidableEq, Repr

structure Ipv6Addr where
  g1 : Fin 65536
  g2 : Fin 65536
  g3 : Fin 65536
  g4 : Fin 65536
  g5 : Fin 65536
  g6 : Fin 65536
  g7 : Fin 65536
  g8 : Fin 65536
  deriving DecidableEq, Repr

/-- Ipv4Addr::LOCALHOST, 127.0.0.1. -/
def ipv4Loopback : Ipv4Addr := ⟨127, 0, 0, 1⟩

/-- Ipv6Addr::LOCALHOST, the address written as colon-colon-1. -/
def ipv6Loopback : Ipv6Addr := ⟨0, 0, 0, 0, 0, 0, 0, 1⟩

inductive SockAddr where
  | v4 (ip : Ipv4Addr) (port : Fin 65536)
  | v6 (ip : Ipv6Addr) (port : Fin 65536)
  deriving DecidableEq, Repr

def SockAddr.port : SockAddr → Fin 65536
  | .v4 _ p => p
  | .v6 _ p => p

def SockAddr.is_ipv4 : SockAddr → Bool
  | .v4 _ _ => true
  | .v6 _ _ => false

def SockAddr.is_ipv6 : SockAddr → Bool
  | .v4 _ _ => false
  | .v6 _ _ => true

/-- IpAddr::is_loopback of the address's ip: 127.0.0.0/8 for v4, the
all-zero-then-one address for v6. -/
def SockAddr.ip_is_loopback : SockAddr → Bool
  | .v4 a _ => a.o1 == (127 : Fin 256)
  | .v6 g _ => g == ipv6Loopback

/-- Mirrors enum DnsTarget; hosts are strings (character lists). -/
inductive DnsTarget where
  | PreferHigher (host : List Char) (port : Fin 65536)
  | Dns4 (host : List Char) (port : Fin 65536)
  | Dns6 (host : List Char) (port : Fin 65536)
  deriving DecidableEq, Repr

def DnsTarget.host : DnsTarget → List Char
  | .PreferHigher h _ => h
  | .Dns4 h _ => h
  | .Dns6 h _ => h

def DnsTarget.portOf : DnsTarget → Fin 65536
  | .PreferHigher _ p => p
  | .Dns4 _ p => p
  | .Dns6 _ p => p

def DnsTarget.includes_ipv6 : DnsTarget → Bool
  | .PreferHigher _ _ => true
  | .Dns6 _ _ => true
  | .Dns4 _ _ => false

def DnsTarget.includes_ipv4 : DnsTarget → Bool
  | .PreferHigher _ _ => true
  | .Dns6 _ _ => false
  | .Dns4 _ _ => true

/-- DnsTarget::contains: port check (the model's port is always known),
then class membership by address family. -/
def DnsTarget.contains (d : DnsTarget) (addr : SockAddr) (check_port : Bool) : Bool :=
  if check_port && !(addr.port == d.portOf) then
    false
  else
    (addr.is_ipv6 && d.includes_ipv6) || (addr.is_ipv4 && d.includes_ipv4)

/-- Mirrors enum TcpStreamTarget. -/
inductive TcpStreamTarget where
  | port (p : Fin 65536)
  | sockAddr (s : SockAddr)
  | dns (d : DnsTarget)
  deriving DecidableEq, Repr

/-- Ipv4Addr Display: dotted decimal. -/
def fmtIpv4 (a : Ipv4Addr) : List Char :=
  joinSep '.' [natRepr a.o1.val, natRepr a.o2.val, natRepr a.o3.val, natRepr a.o4.val]

/-- Display for TcpStreamTarget, one case per write! arm; the slash-nested
shape spells out the same character sequence as the Rust format strings
slash-tcp-slash-port, slash-ip4-slash-addr-slash-tcp-slash-port, and so on.
The IPv6 group rendering is the fmt6 parameter (std Ipv6Addr Display). -/
def targetFormat (fmt6 : Ipv6Addr → List Char) : TcpStreamTarget → List Char
  | .port p => '/' :: ("tcp".data ++ '/' :: natRepr p.val)
  | .sockAddr (.v4 a p) =>
    '/' :: ("ip4".data ++ '/' :: (fmtIpv4 a ++ '/' :: ("tcp".data ++ '/' :: natRepr p.val)))
  | .sockAddr (.v6 a p) =>
    '/' :: ("ip6".data ++ '/' :: (fmt6 a ++ '/' :: ("tcp".data ++ '/' :: natRepr p.val)))
  | .dns (.PreferHigher h p) =>
    '/' :: ("dns".data ++ '/' :: (h ++ '/' :: ("tcp".data ++ '/' :: natRepr p.val)))
  | .dns (.Dns4 h p) =>
    '/' :: ("dns4".data ++ '/' :: (h ++ '/' :: ("tcp".data ++ '/' :: natRepr p.val)))
  | .dns (.Dns6 h p) =>
    '/' :: ("dns6".data ++ '/' :: (h ++ '/' :: ("tcp".data ++ '/' :: natRepr p.val)))

/-- One octet of a dotted-decimal address. -/
def readOctet? (s : List Char) : Option (Fin 256) :=
  match readNatB 10 s with
  | none => none
  | some n => if h : n < 256 then some ⟨n, h⟩ else none

/-- std Ipv4Addr::from_str on dotted-decimal input: exactly four octets,
each at most 255.  (std additionally rejects leading zeros; canonical
renderings carry none, so the difference is invisible to the claims.) -/
def parseIpv4 (s : List Char) : Option Ipv4Addr :=
  match splitAll '.' s with
  | [s1, s2, s3, s4] =>
    match readOctet? s1, readOctet? s2, readOctet? s3, readOctet? s4 with
    | some a, some b, some c, some d => some ⟨a, b, c, d⟩
    | _, _, _, _ => none
  | _ => none

/-- Mirrors enum TcpStreamTargetParseError (wrapped std payloads dropped). -/
inductive TcpStreamTargetParseError where
  | TooFewSegments
  | InvalidPrefix
  | NoMatchingFormat
  | InvalidPort
  | InvalidIP
  deriving DecidableEq, Repr

/-- slice::split_last as used on the segment vector. -/
def splitLast? {β : Type} : List β → Option (List β × β)
  | [] => none
  | [x] => some ([], x)
  | x :: xs =>
    match splitLast? xs with
    | none => none
    | some (ys, y) => some (x :: ys, y)

/-- FromStr for TcpStreamTarget: splitn(5, slash), require an empty prefix
segment, take the last segment as the u16 port, then match the middle
segments.  The tcp-only shape parses to the IPv4 LOCALHOST socket address.
IPv6 textual parsing (std Ipv6Addr::from_str) is the p6 parameter. -/
def targetFromStr (p6 : List Char → Option Ipv6Addr) (s : List Char) :
    Except TcpStreamTargetParseError TcpStreamTarget :=
  match splitn 5 '/' s with
  | [] => .error .TooFewSegments
  | pfx :: parts =>
    if pfx ≠ [] then .error .InvalidPrefix
    else
      match splitLast? parts with
      | none => .error .TooFewSegments
      | some (mid, portSeg) =>
        match readU16? portSeg with
        | none => .error .InvalidPort
        | some port =>
          match mid with
          | [s1] =>
            if s1 = "tcp".data then .ok (.sockAddr (.v4 ipv4Loopback port))
            else .error .NoMatchingFormat
          | [s1, s2, s3] =>
            if s3 ≠ "tcp".data then .error .NoMatchingFormat
            else if s1 = "ip4".data then
              match parseIpv4 s2 with
              | some a => .ok (.sockAddr (.v4 a port))
              | none => .error .InvalidIP
            else if s1 = "ip6".data then
              match p6 s2 with
              | some a => .ok (.sockAddr (.v6 a port))
              | none => .error .InvalidIP
            else if s1 = "dns".data then .ok (.dns (.PreferHigher s2 port))
            else if s1 = "dns4".data then .ok (.dns (.Dns4 s2 port))
            else if s1 = "dns6".data then .ok (.dns (.Dns6 s2 port))
            else .error .NoMatchingFormat
          | _ => .error .NoMatchingFormat

/-- Mirrors TargetResolutionError (DNS resolution failure). -/
inductive TargetResolutionError where
  | IOError
  deriving DecidableEq, Repr

/-- TcpStreamService::resolve_dns: look the host and port up (the
lookup_host parameter stands for the OS resolver), then keep the addresses
matching the DNS class with the port checked. -/
def resolve_dns
    (lookup_host : List Char → Fin 65536 → Except TargetResolutionError (List SockAddr))
    (d : DnsTarget) : Except TargetResolutionError (List SockAddr) :=
  match lookup_host d.host d.portOf with
  | .error e => .error e
  | .ok resolved => .ok (resolved.filter (fun a => d.contains a true))

/-- TcpStreamService::resolve: the Port shape yields the IPv6 then the IPv4
loopback candidates, a socket address yields itself, a DNS target resolves. -/
def resolve
    (lookup_host : List Char → Fin 65536 → Except TargetResolutionError (List SockAddr)) :
    TcpStreamTarget → Except TargetResolutionError (List SockAddr)
  | .port p => .ok [.v6 ipv6Loopback p, .v4 ipv4Loopback p]
  | .sockAddr s => .ok [s]
  | .dns d => resolve_dns lookup_host d

/-- Mirrors enum TcpConnectError. -/
inductive TcpConnectError where
  | ConnectionFailed
  | NoLoopbackAddressesFound
  deriving DecidableEq, Repr

/-- The pre-dial decision logic of TcpStreamService::connect: an empty list
fails as ConnectionFailed; under local_only every non-loopback address is
drained, and an emptied list fails as NoLoopbackAddressesFound; otherwise
the surviving addresses are dialed (the dialing itself is I/O outside the
model). -/
def connect_decision (local_only : Bool) (addrs : List SockAddr) :
    Except TcpConnectError (List SockAddr) :=
  if addrs.isEmpty then .error .ConnectionFailed
  else if local_only then
    let kept := addrs.filter (fun a => a.ip_is_loopback)
    if kept.isEmpty then .error .NoLoopbackAddressesFound else .ok kept
  else .ok addrs

/-- The error path of TcpStreamService::handle up to the dial: parse failure
and resolution failure map to AddressError; ConnectionFailed maps to
DependencyFailure and NoLoopbackAddressesFound to AddressError; on success
the function hands the surviving address list to TcpStream::connect. -/
def tcp_handle_decision (p6 : List Char → Option Ipv6Addr) (local_only : Bool)
    (lookup_host : List Char → Fin 65536 → Except TargetResolutionError (List SockAddr))
    (addr : RouteAddress) : Except ServiceError (List SockAddr) :=
  match targetFromStr p6 addr with
  | .error _ => .error .AddressError
  | .ok target =>
    match resolve lookup_host target with
    | .error _ => .error .AddressError
    | .ok addrs =>
      match connect_decision local_only addrs with
      | .error .ConnectionFailed => .error .DependencyFailure
      | .error .NoLoopbackAddressesFound => .error .AddressError
      | .ok dial => .ok dial

/-! Round-trip lemmas for the codec pieces. -/

theorem readOctet?_natRepr (o : Fin 256) : readOctet? (natRepr o.val) = some o := by
  unfold readOctet? natRepr
  rw [readNatB_natReprB (by norm_num) (by norm_num)]
  simp [o.isLt]

theorem mem_joinSep {sep : Char} {c : Char} :
    ∀ {segs : List (List Char)}, c ∈ joinSep sep segs →
      c = sep ∨ ∃ t ∈ segs, c ∈ t := by
  intro segs
  induction segs with
  | nil => intro h; cases h
  | cons s rest ih =>
    intro h
    cases rest with
    | nil =>
      exact Or.inr ⟨s, List.mem_cons_self _ _, h⟩
    | cons s2 rest2 =>
      have hjoin : joinSep sep (s :: s2 :: rest2) =
          s ++ sep :: joinSep sep (s2 :: rest2) := rfl
      rw [hjoin] at h
      rcases List.mem_append.mp h with hs | hrest
      · exact Or.inr ⟨s, List.mem_cons_self _ _, hs⟩
      · rcases List.mem_cons.mp hrest with rfl | htail
        · exact Or.inl rfl
        · rcases ih htail with hEq | ⟨t, ht, hc⟩
          · exact Or.inl hEq
          · exact Or.inr ⟨t, List.mem_cons_of_mem s ht, hc⟩

theorem fmtIpv4_not_mem_slash (a : Ipv4Addr) : '/' ∉ fmtIpv4 a := by
  intro h
  rcases mem_joinSep h with hEq | ⟨t, ht, hc⟩
  · cases hEq
  · simp only [List.mem_cons, List.not_mem_nil, or_false] at ht
    have : '/' ∉ t := by
      rcases ht with rfl | rfl | rfl | rfl
      · exact natRepr_not_mem_slash _
      · exact natRepr_not_mem_slash _
      · exact natRepr_not_mem_slash _
      · exact natRepr_not_mem_slash _
    exact this hc

theorem ipv4_roundtrip (a : Ipv4Addr) : parseIpv4 (fmtIpv4 a) = some a := by
  obtain ⟨o1, o2, o3, o4⟩ := a
  have hsplit : splitAll '.' (fmtIpv4 ⟨o1, o2, o3, o4⟩) =
      [natRepr o1.val, natRepr o2.val, natRepr o3.val, natRepr o4.val] := by
    apply splitAll_join
    · simp
    · intro t ht
      simp only [List.mem_cons, List.not_mem_nil, or_false] at ht
      rcases ht with rfl | rfl | rfl | rfl
      · exact natRepr_not_mem_dot _
      · exact natRepr_not_mem_dot _
      · exact natRepr_not_mem_dot _
      · exact natRepr_not_mem_dot _
  unfold parseIpv4
  rw [hsplit]
  simp [readOctet?_natRepr]

/-! The concrete IPv6 codec model used to instantiate the std-parameterized
theorems: uncompressed lowercase-hex groups joined by colons.  Its format is
the colon-hex notation that the std parser accepts; std Display additionally
compresses zero runs, which only changes which concrete strings appear, not
the round-trip contract the theorems assume. -/

def fmtIpv6Model (a : Ipv6Addr) : List Char :=
  joinSep ':' [natReprB 16 a.g1.val, natReprB 16 a.g2.val, natReprB 16 a.g3.val,
    natReprB 16 a.g4.val, natReprB 16 a.g5.val, natReprB 16 a.g6.val,
    natReprB 16 a.g7.val, natReprB 16 a.g8.val]

def readHex16? (s : List Char) : Option (Fin 65536) :=
  match readNatB 16 s with
  | none => none
  | some n => if h : n < 65536 then some ⟨n, h⟩ else none

def parseIpv6Model (s : List Char) : Option Ipv6Addr :=
  match splitAll ':' s with
  | [s1, s2, s3, s4, s5, s6, s7, s8] =>
    match readHex16? s1, readHex16? s2, readHex16? s3, readHex16? s4,
        readHex16? s5, readHex16? s6, readHex16? s7, readHex16? s8 with
    | some g1, some g2, some g3, some g4, some g5, some g6, some g7, some g8 =>
      some ⟨g1, g2, g3, g4, g5, g6, g7, g8⟩
    | _, _, _, _, _, _, _, _ => none
  | _ => none

theorem readHex16?_natReprB (g : Fin 65536) :
    readHex16? (natReprB 16 g.val) = some g := by
  unfold readHex16?
  rw [readNatB_natReprB (by norm_num) (by norm_num)]
  simp [g.isLt]

theorem ipv6Model_roundtrip (a : Ipv6Addr) :
    parseIpv6Model (fmtIpv6Model a) = some a := by
  obtain ⟨g1, g2, g3, g4, g5, g6, g7, g8⟩ := a
  have hsplit : splitAll ':' (fmtIpv6Model ⟨g1, g2, g3, g4, g5, g6, g7, g8⟩) =
      [natReprB 16 g1.val, natReprB 16 g2.val, natReprB 16 g3.val,
        natReprB 16 g4.val, natReprB 16 g5.val, natReprB 16 g6.val,
        natReprB 16 g7.val, natReprB 16 g8.val] := by
    apply splitAll_join
    · simp
    · intro t ht
      have hcol : ∀ n : Nat, ':' ∉ natReprB 16 n :=
        fun n => natReprB_not_mem_colon (by norm_num) (by norm_num)
      simp only [List.mem_cons, List.not_mem_nil, or_false] at ht
      rcases ht with rfl | rfl | rfl | rfl | rfl | rfl | rfl | rfl
      all_goals exact hcol _
  unfold parseIpv6Model
  rw [hsplit]
  simp [readHex16?_natReprB]

theorem ipv6Model_not_mem_slash (a : Ipv6Addr) : '/' ∉ fmtIpv6Model a := by
  intro h
  rcases mem_joinSep h with hEq | ⟨t, ht, hc⟩
  · cases hEq
  · have : '/' ∉ t := by
      have hsl : ∀ n : Nat, '/' ∉ natReprB 16 n :=
        fun n => natReprB_not_mem_slash (by norm_num) (by norm_num)
      simp only [List.mem_cons, List.not_mem_nil, or_false] at ht
      rcases ht with rfl | rfl | rfl | rfl | rfl | rfl | rfl | rfl
      all_goals exact hsl _
    exact this hc

/-! Parsing each Display shape back. -/

theorem targetFromStr_port_shape (p6 : List Char → Option Ipv6Addr) (p : Fin 65536) :
    targetFromStr p6 ('/' :: ("tcp".data ++ '/' :: natRepr p.val)) =
      .ok (.sockAddr (.v4 ipv4Loopback p)) := by
  have hsplit : splitn 5 '/' ('/' :: ("tcp".data ++ '/' :: natRepr p.val)) =
      [[], "tcp".data, natRepr p.val] := by
    rw [splitn_sep_cons, splitn_append _ (by decide), splitn_not_mem _
      (natRepr_not_mem_slash p.val)]
  unfold targetFromStr
  rw [hsplit]
  simp [splitLast?, readU16?_natRepr]

theorem targetFromStr_ip4_shape (p6 : List Char → Option Ipv6Addr) (a : Ipv4Addr)
    (p : Fin 65536) :
    targetFromStr p6 ('/' :: ("ip4".data ++ '/' :: (fmtIpv4 a ++ '/' ::
        ("tcp".data ++ '/' :: natRepr p.val)))) =
      .ok (.sockAddr (.v4 a p)) := by
  have hsplit : splitn 5 '/' ('/' :: ("ip4".data ++ '/' :: (fmtIpv4 a ++ '/' ::
      ("tcp".data ++ '/' :: natRepr p.val)))) =
      [[], "ip4".data, fmtIpv4 a, "tcp".data, natRepr p.val] := by
    rw [splitn_sep_cons, splitn_append _ (by decide),
      splitn_append _ (fmtIpv4_not_mem_slash a), splitn_append _ (by decide)]
    rfl
  unfold targetFromStr
  rw [hsplit]
  simp [splitLast?, readU16?_natRepr, ipv4_roundtrip]

theorem targetFromStr_ip6_shape (p6 : List Char → Option Ipv6Addr)
    (fmt6 : Ipv6Addr → List Char) (h6rt : ∀ a, p6 (fmt6 a) = some a)
    (h6slash : ∀ a, '/' ∉ fmt6 a) (a : Ipv6Addr) (p : Fin 65536) :
    targetFromStr p6 ('/' :: ("ip6".data ++ '/' :: (fmt6 a ++ '/' ::
        ("tcp".data ++ '/' :: natRepr p.val)))) =
      .ok (.sockAddr (.v6 a p)) := by
  have hsplit : splitn 5 '/' ('/' :: ("ip6".data ++ '/' :: (fmt6 a ++ '/' ::
      ("tcp".data ++ '/' :: natRepr p.val)))) =
      [[], "ip6".data, fmt6 a, "tcp".data, natRepr p.val] := by
    rw [splitn_sep_cons, splitn_append _ (by decide),
      splitn_append _ (h6slash a), splitn_append _ (by decide)]
    rfl
  unfold targetFromStr
  rw [hsplit]
  simp [splitLast?, readU16?_natRepr, h6rt a]

theorem targetFromStr_dns_shape (p6 : List Char → Option Ipv6Addr)
    (h : List Char) (hh : '/' ∉ h) (p : Fin 65536) :
    targetFromStr p6 ('/' :: ("dns".data ++ '/' :: (h ++ '/' ::
        ("tcp".data ++ '/' :: natRepr p.val)))) =
      .ok (.dns (.PreferHigher h p)) := by
  have hsplit : splitn 5 '/' ('/' :: ("dns".data ++ '/' :: (h ++ '/' ::
      ("tcp".data ++ '/' :: natRepr p.val)))) =
      [[], "dns".data, h, "tcp".data, natRepr p.val] := by
    rw [splitn_sep_cons, splitn_append _ (by decide), splitn_append _ hh,
      splitn_append _ (by decide)]
    rfl
  unfold targetFromStr
  rw [hsplit]
  simp [splitLast?, readU16?_natRepr]

theorem targetFromStr_dns4_shape (p6 : List Char → Option Ipv6Addr)
    (h : List Char) (hh : '/' ∉ h) (p : Fin 65536) :
    targetFromStr p6 ('/' :: ("dns4".data ++ '/' :: (h ++ '/' ::
        ("tcp".data ++ '/' :: natRepr p.val)))) =
      .ok (.dns (.Dns4 h p)) := by
  have hsplit : splitn 5 '/' ('/' :: ("dns4".data ++ '/' :: (h ++ '/' ::
      ("tcp".data ++ '/' :: natRepr p.val)))) =
      [[], "dns4".data, h, "tcp".data, natRepr p.val] := by
    rw [splitn_sep_cons, splitn_append _ (by decide), splitn_append _ hh,
      splitn_append _ (by decide)]
    rfl
  unfold targetFromStr
  rw [hsplit]
  simp [splitLast?, readU16?_natRepr]

theorem targetFromStr_dns6_shape (p6 : List Char → Option Ipv6Addr)
    (h : List Char) (hh : '/' ∉ h) (p : Fin 65536) :
    targetFromStr p6 ('/' :: ("dns6".data ++ '/' :: (h ++ '/' ::
        ("tcp".data ++ '/' :: natRepr p.val)))) =
      .ok (.dns (.Dns6 h p)) := by
  have hsplit : splitn 5 '/' ('/' :: ("dns6".data ++ '/' :: (h ++ '/' ::
      ("tcp".data ++ '/' :: natRepr p.val)))) =
      [[], "dns6".data, h, "tcp".data, natRepr p.val] := by
    rw [splitn_sep_cons, splitn_append _ (by decide), splitn_append _ hh,
      splitn_append _ (by decide)]
    rfl
  unfold targetFromStr
  rw [hsplit]
  simp [splitLast?, readU16?_natRepr]

/-- C7 counterexample: the Port shape does not survive the round trip.
Formatting Port 80 yields the tcp-slash-80 shorthand, which FromStr parses
to the IPv4 LOCALHOST socket address, not back to Port 80. -/
theorem roundtrip_port_counterexample :
    targetFromStr parseIpv6Model (targetFormat fmtIpv6Model (.port (80 : Fin 65536))) =
      .ok (.sockAddr (.v4 ipv4Loopback (80 : Fin 65536)))
    ∧ TcpStreamTarget.sockAddr (.v4 ipv4Loopback (80 : Fin 65536)) ≠
      TcpStreamTarget.port (80 : Fin 65536) :=
  ⟨targetFromStr_port_shape parseIpv6Model (80 : Fin 65536), by decide⟩

/-- C7 amended: parse of format is the identity for the SocketAddr shapes
and for the Dns shapes whose host contains no slash, given that the std
IPv6 codec the code delegates to round-trips and prints no slash; the Port
shape instead re-parses as the IPv4 loopback socket address carrying the
same port. -/
theorem roundtrip_amended
    (fmt6 : Ipv6Addr → List Char) (p6 : List Char → Option Ipv6Addr)
    (h6rt : ∀ a, p6 (fmt6 a) = some a)
    (h6slash : ∀ a, '/' ∉ fmt6 a) :
    (∀ x : TcpStreamTarget, (∀ p, x ≠ .port p) →
        (∀ d, x = .dns d → '/' ∉ d.host) →
        targetFromStr p6 (targetFormat fmt6 x) = .ok x)
    ∧ ∀ p : Fin 65536,
        targetFromStr p6 (targetFormat fmt6 (.port p)) =
          .ok (.sockAddr (.v4 ipv4Loopback p)) := by
  constructor
  · intro x hport hhost
    cases x with
    | port p => exact absurd rfl (hport p)
    | sockAddr s =>
      cases s with
      | v4 a p => exact targetFromStr_ip4_shape p6 a p
      | v6 a p => exact targetFromStr_ip6_shape p6 fmt6 h6rt h6slash a p
    | dns d =>
      cases d with
      | PreferHigher h p => exact targetFromStr_dns_shape p6 h (hhost _ rfl) p
      | Dns4 h p => exact targetFromStr_dns4_shape p6 h (hhost _ rfl) p
      | Dns6 h p => exact targetFromStr_dns6_shape p6 h (hhost _ rfl) p
  · intro p
    exact targetFromStr_port_shape p6 p

/-- Witness for the C7 amendment at the concrete IPv6 codec model. -/
theorem roundtrip_amended_witness :
    (∀ x : TcpStreamTarget, (∀ p, x ≠ .port p) →
        (∀ d, x = .dns d → '/' ∉ d.host) →
        targetFromStr parseIpv6Model (targetFormat fmtIpv6Model x) = .ok x)
    ∧ ∀ p : Fin 65536,
        targetFromStr parseIpv6Model (targetFormat fmtIpv6Model (.port p)) =
          .ok (.sockAddr (.v4 ipv4Loopback p)) :=
  roundtrip_amended fmtIpv6Model parseIpv6Model ipv6Model_roundtrip
    ipv6Model_not_mem_slash

/-- C8: parsing the tcp-slash-7878 shorthand yields the IPv4-only socket
address, whose resolution is the single candidate 127.0.0.1:7878; the
loopback pair with IPv6 preferred is produced by resolve only for the Port
shape, which the parser never returns.  This contradicts the doc comment on
the FromStr implementation, which promises localhost with an IPv6
preference for the shorthand. -/
theorem tcp_shorthand_divergence :
    targetFromStr parseIpv6Model ("/tcp/7878".data) =
      .ok (.sockAddr (.v4 ipv4Loopback (7878 : Fin 65536)))
    ∧ resolve (fun _ _ => .ok []) (.sockAddr (.v4 ipv4Loopback (7878 : Fin 65536))) =
      .ok [.v4 ipv4Loopback (7878 : Fin 65536)]
    ∧ resolve (fun _ _ => .ok []) (.port (7878 : Fin 65536)) =
      .ok [.v6 ipv6Loopback (7878 : Fin 65536), .v4 ipv4Loopback (7878 : Fin 65536)] := by
  refine ⟨by decide, rfl, rfl⟩

/-- C9 counterexample: a DNS target whose resolution is empty makes
handle fail with DependencyFailure (via TcpConnectError::ConnectionFailed),
not with AddressError as claimed for every empty resolution result. -/
theorem empty_resolution_counterexample :
    tcp_handle_decision parseIpv6Model true (fun _ _ => .ok [])
        ("/dns4/example.com/tcp/80".data) = .error .DependencyFailure
    ∧ tcp_handle_decision parseIpv6Model true (fun _ _ => .ok [])
        ("/dns4/example.com/tcp/80".data) ≠ .error .AddressError := by
  refine ⟨by decide, by decide⟩

/-- C9 amended: with local_only set, connect keeps exactly the loopback
addresses of a non-empty resolution and dials only those; when the filter
empties a non-empty list, handle fails with AddressError; when the
resolution itself is empty, handle fails with DependencyFailure instead. -/
theorem local_only_filter_spec
    (p6 : List Char → Option Ipv6Addr)
    (lookup_host : List Char → Fin 65536 → Except TargetResolutionError (List SockAddr))
    (addr : RouteAddress) (target : TcpStreamTarget) (addrs : List SockAddr)
    (hparse : targetFromStr p6 addr = .ok target)
    (hres : resolve lookup_host target = .ok addrs) :
    (∀ l, connect_decision true addrs = .ok l →
        l = addrs.filter (fun a => a.ip_is_loopback)
        ∧ ∀ a ∈ l, a.ip_is_loopback = true)
    ∧ (addrs ≠ [] → addrs.filter (fun a => a.ip_is_loopback) = [] →
        tcp_handle_decision p6 true lookup_host addr = .error .AddressError)
    ∧ (addrs = [] →
        tcp_handle_decision p6 true lookup_host addr = .error .DependencyFailure) := by
  refine ⟨?_, ?_, ?_⟩
  · intro l hl
    cases hemp : addrs.isEmpty with
    | true => simp [connect_decision, hemp] at hl
    | false =>
      cases hkept : (addrs.filter (fun a => a.ip_is_loopback)).isEmpty with
      | true => simp [connect_decision, hemp, hkept] at hl
      | false =>
        simp [connect_decision, hemp, hkept] at hl
        subst hl
        exact ⟨rfl, fun a ha => (List.mem_filter.mp ha).2⟩
  · intro hne hfilter
    have h1 : addrs.isEmpty = false := by
      cases addrs with
      | nil => exact absurd rfl hne
      | cons _ _ => rfl
    have hcd : connect_decision true addrs = .error .NoLoopbackAddressesFound := by
      simp [connect_decision, h1, hfilter]
    simp only [tcp_handle_decision, hparse, hres, hcd]
  · intro hnil
    subst hnil
    have hcd : connect_decision true ([] : List SockAddr) =
        .error .ConnectionFailed := rfl
    simp only [tcp_handle_decision, hparse, hres, hcd]

/-- Witness for the C9 amendment: a public IPv4 target under local_only
is emptied by the loopback filter and handle reports AddressError. -/
theorem local_only_filter_spec_witness :
    (∀ l, connect_decision true [SockAddr.v4 ⟨8, 8, 8, 8⟩ (53 : Fin 65536)] = .ok l →
        l = [SockAddr.v4 ⟨8, 8, 8, 8⟩ (53 : Fin 65536)].filter
              (fun a => a.ip_is_loopback)
        ∧ ∀ a ∈ l, a.ip_is_loopback = true)
    ∧ ([SockAddr.v4 ⟨8, 8, 8, 8⟩ (53 : Fin 65536)] ≠ [] →
        [SockAddr.v4 ⟨8, 8, 8, 8⟩ (53 : Fin 65536)].filter
            (fun a => a.ip_is_loopback) = [] →
        tcp_handle_decision parseIpv6Model true (fun _ _ => .ok [])
          ("/ip4/8.8.8.8/tcp/53".data) = .error .AddressError)
    ∧ ([SockAddr.v4 ⟨8, 8, 8, 8⟩ (53 : Fin 65536)] = [] →
        tcp_handle_decision parseIpv6Model true (fun _ _ => .ok [])
          ("/ip4/8.8.8.8/tcp/53".data) = .error .DependencyFailure) :=
  local_only_filter_spec parseIpv6Model (fun _ _ => .ok [])
    ("/ip4/8.8.8.8/tcp/53".data)
    (.sockAddr (.v4 ⟨8, 8, 8, 8⟩ (53 : Fin 65536)))
    [SockAddr.v4 ⟨8, 8, 8, 8⟩ (53 : Fin 65536)]
    (by decide) rfl

end Snocat
